import Mathlib

/-!
Verification of the wifi_i2c command engine (ESP32 UDP-to-I2C bridge).

The definitions below are a shallow embedding of the engine implemented in
`src/main/udp_server.h` (the richest snapshot: `CEngine::task`,
`handle_cmd_write_reg`, `handle_cmd_read_reg`, `handle_cmd_client_port`,
`handle_cmd_i2c_addr`, `i2c_write`, `i2c_read`, `reply`).  Bytes are `Nat`
values; every value read from a packet buffer is reduced `% 256`, mirroring
the `unsigned char` buffers of the C code.  The external I2C bus driver is
an oracle (`I2CExt`); the 256-byte virtual device used when the bus address
is 0 is an explicit list.  Reads that the C code performs beyond the end of
the declared payload (they land in adjacent memory of the rolling receive
buffer) are modelled as a distinguished `none` outcome.
-/

namespace WifiI2c

/-- Big-endian accumulation of a list of bytes, mirroring the repeated
`v = (v << 8) | *p++` idiom of the C code (`*p` is an `unsigned char`). -/
def beVal (bs : List Nat) : Nat :=
  bs.foldl (fun a b => a * 256 + b % 256) 0

/-- The `n`-byte big-endian encoding of `v` (most significant byte first);
used to build concrete wire images and to state well-formedness. -/
def beBytes : Nat → Nat → List Nat
  | 0, _ => []
  | n + 1, v => beBytes n (v / 256) ++ [v % 256]

@[simp] theorem beBytes_length (n v : Nat) : (beBytes n v).length = n := by
  induction n generalizing v with
  | zero => rfl
  | succ n ih => simp [beBytes, ih]

theorem beVal_append_singleton (bs : List Nat) (b : Nat) :
    beVal (bs ++ [b]) = beVal bs * 256 + b % 256 := by
  simp [beVal, List.foldl_append]

theorem beVal_beBytes (n v : Nat) (h : v < 256 ^ n) : beVal (beBytes n v) = v := by
  induction n generalizing v with
  | zero =>
      simp [beBytes, beVal]
      omega
  | succ n ih =>
      have hdiv : v / 256 < 256 ^ n := by
        rw [Nat.div_lt_iff_lt_mul (by norm_num)]
        calc v < 256 ^ (n + 1) := h
        _ = 256 ^ n * 256 := by ring
      rw [beBytes, beVal_append_singleton, ih _ hdiv]
      omega

/-- The external I2C bus driver (an external collaborator of the engine,
used when the configured bus address is nonzero): success oracles for the
register-address write, the data write and the data read, plus the bytes
a successful read delivers into the caller's buffer. -/
structure I2CExt where
  writeReg : Nat → Nat → Nat → List Nat → Bool
  setAddr : Nat → Nat → Nat → Bool
  readOk : Nat → Nat → Bool
  readData : Nat → Nat → List Nat

/-- A bus oracle on which every external operation succeeds and reads
deliver zeros; used for concrete evaluations. -/
def extTrue : I2CExt :=
  ⟨fun _ _ _ _ => true, fun _ _ _ => true, fun _ _ => true,
   fun _ n => List.replicate n 0⟩

/-- The virtual-device store loop of `CEngine::i2c_write` when
`m_i2c_address == 0`: byte `i` of `data` is stored at index
`(reg + i) & 0xFF` of the 256-byte `virtual_device` array. -/
def vdWrite (vd : List Nat) (reg : Nat) : List Nat → List Nat
  | [] => vd
  | b :: rest => vdWrite (vd.set (reg % 256) (b % 256)) (reg + 1) rest

/-- The virtual-device fetch loop of `CEngine::i2c_read` when
`m_i2c_address == 0`: byte `i` delivered is `virtual_device[(reg+i) & 0xFF]`. -/
def vdRead (vd : List Nat) (reg : Nat) : Nat → List Nat
  | 0 => []
  | n + 1 => vd.getD (reg % 256) 0 :: vdRead vd (reg + 1) n

/-- `CEngine::i2c_write`: the virtual device absorbs the write when the bus
address is 0 (always succeeding), otherwise the external driver is asked. -/
def i2c_write (ext : I2CExt) (addr : Nat) (vd : List Nat) (reg width : Nat)
    (data : List Nat) : Bool × List Nat :=
  if addr = 0 then (true, vdWrite vd reg data)
  else (ext.writeReg addr reg width data, vd)

/-- `CEngine::i2c_read`: the virtual device serves the read when the bus
address is 0, otherwise the register address is written and the data read
through the external driver; `none` is a failed read. -/
def i2c_read (ext : I2CExt) (addr : Nat) (vd : List Nat) (reg width len : Nat) :
    Option (List Nat) :=
  if addr = 0 then some (vdRead vd reg len)
  else if ext.setAddr addr reg width then
    if ext.readOk addr len then some (ext.readData addr len) else none
  else none

/-- Result of `CEngine::handle_cmd_write_reg`: `res = some (e, pl)` means a
reply with error code `e` and payload `pl` was sent; `res = none` means the
parser read header bytes lying beyond the declared payload (the C code reads
adjacent buffer memory there).  `trace` lists every `i2c_write` call as
`(register, register-width, data)`, in call order; `vd` is the final
virtual-device contents. -/
structure WROut where
  res : Option (Nat × List Nat)
  trace : List (Nat × Nat × List Nat)
  vd : List Nat
  deriving DecidableEq, Repr

/-- The entry-consuming loop of `CEngine::handle_cmd_write_reg`: while bytes
remain, read a 1-byte register width, `width` register-address bytes, a
2-byte big-endian write length, check the remaining byte count against the
write length (`ERR_NOT_ENUF_DATA = 1` on shortfall), perform the bus write
(`ERR_I2C_WRITE = 2` with the register's low byte on failure), and advance;
an exhausted payload is acknowledged with `ERR_NONE = 0`. -/
def wrLoop (ext : I2CExt) (addr : Nat) (vd : List Nat) (p : List Nat) : WROut :=
  if hp : p.length = 0 then ⟨some (0, []), [], vd⟩
  else
    -- int reg_width = *data++;
    let reg_width := p.headD 0 % 256
    if p.tail.length < reg_width then ⟨none, [], vd⟩
    else
      -- while (w--) reg = (reg << 8) | *data++;
      let reg := beVal (p.tail.take reg_width)
      if (p.tail.drop reg_width).length < 2 then ⟨none, [], vd⟩
      else
        -- two length bytes, big-endian
        let wlen := beVal ((p.tail.drop reg_width).take 2)
        let r2 := (p.tail.drop reg_width).drop 2
        -- if (data_length < write_length) reply(ERR_NOT_ENUF_DATA)
        if r2.length < wlen then ⟨some (1, []), [], vd⟩
        else
          let data := r2.take wlen
          let w := i2c_write ext addr vd reg reg_width data
          if w.1 then
            let o := wrLoop ext addr w.2 (r2.drop wlen)
            ⟨o.res, (reg, reg_width, data) :: o.trace, o.vd⟩
          else ⟨some (2, [reg % 256]), [(reg, reg_width, data)], w.2⟩
termination_by p.length
decreasing_by
  simp only [List.length_drop, List.length_tail]
  omega

/-- `CEngine::handle_cmd_read_reg`: read a 1-byte register width, `width`
register-address bytes and a 2-byte big-endian read length (the payload
length is never consulted; `none` marks a header byte read beyond the
payload), then perform one bus read, replying `ERR_I2C_READ = 3` with the
register's low byte on failure and `ERR_NONE = 0` with the data on success. -/
def handleReadReg (ext : I2CExt) (addr : Nat) (vd : List Nat) (p : List Nat) :
    Option (Nat × List Nat) :=
  if p.length < 1 then none
  else
    let reg_width := p.headD 0 % 256
    if p.tail.length < reg_width then none
    else
      let reg := beVal (p.tail.take reg_width)
      if (p.tail.drop reg_width).length < 2 then none
      else
        let rlen := beVal ((p.tail.drop reg_width).take 2)
        match i2c_read ext addr vd reg reg_width rlen with
        | none => some (3, [reg % 256])
        | some d => some (0, d)

/-- The session state owned by `CEngine` plus the global `virtual_device`
array: the dedup flag and value (`m_have_most_recent_trans_id`,
`m_most_recent_trans_id`), the echoed command (`m_command`), the bus address
(`m_i2c_address`, default `0x62`) and the 256 virtual-device bytes. -/
structure Engine where
  have_id : Bool
  last_id : Nat
  cmd : Nat
  i2c_addr : Nat
  vd : List Nat
  deriving DecidableEq, Repr

/-- Engine state at `CEngine::begin`: no recent transaction id, default bus
address `0x62`, zeroed virtual device (static storage). -/
def initEngine : Engine :=
  ⟨false, 0, 0, 0x62, List.replicate 256 0⟩

/-- `CEngine::reply`: a reply datagram is the big-endian
`m_most_recent_trans_id`, the echoed `m_command`, the error code byte, then
the optional payload. -/
def mkReply (tid cmd err : Nat) (pl : List Nat) : List Nat :=
  tid / 2 ^ 24 % 256 :: tid / 2 ^ 16 % 256 :: tid / 2 ^ 8 % 256 :: tid % 256 ::
    cmd % 256 :: err % 256 :: pl

/-- What one `CEngine::task` iteration produced for a packet of length ≥ 5:
the new engine state, the reply datagrams sent (none when the packet was
deduped or its command unknown), and the port handed to
`UDPServer.set_client_port` when the command was `CMD_CLIENT_PORT`. -/
structure StepOut where
  st : Engine
  sent : List (List Nat)
  setPort : Option Nat
  deriving DecidableEq, Repr

/-- One iteration of the `CEngine::task` loop on a packet of length ≥ 5:
extract the big-endian transaction id (bytes 0-3) and command (byte 4);
commands `CMD_INIT_SEQ = 0` and `CMD_CLIENT_PORT = 1` clear the dedup flag
before the dedup check; a packet whose id matches the remembered one is
dropped; otherwise the id and command are recorded and the command is
dispatched (`2 = CMD_I2C_ADDR`, `3 = CMD_WRITE_REG`, `4 = CMD_READ_REG`,
`5 = CMD_GET_FWREV`, `FW_VERSION = "1000"`; unknown codes fall through the
switch with no reply). -/
def step (ext : I2CExt) (st0 : Engine) (p : List Nat) : StepOut :=
  let tid := beVal (p.take 4)
  let cmdByte := p.getD 4 0 % 256
  let st1 := if cmdByte = 0 ∨ cmdByte = 1 then { st0 with have_id := false } else st0
  if st1.have_id ∧ tid = st1.last_id then ⟨st1, [], none⟩
  else
    let st2 : Engine := { st1 with have_id := true, last_id := tid, cmd := cmdByte }
    let payload := p.drop 5
    if cmdByte = 0 then
      ⟨st2, [mkReply tid cmdByte 0 []], none⟩
    else if cmdByte = 1 then
      -- int udp_port = (data[0] << 8) | data[1];
      let port := payload.getD 0 0 % 256 * 256 + payload.getD 1 0 % 256
      ⟨st2, [mkReply tid cmdByte 0 []], some port⟩
    else if cmdByte = 2 then
      ⟨{ st2 with i2c_addr := payload.getD 0 0 % 256 }, [mkReply tid cmdByte 0 []], none⟩
    else if cmdByte = 3 then
      let o := wrLoop ext st2.i2c_addr st2.vd payload
      ⟨{ st2 with vd := o.vd },
        (match o.res with
         | none => []
         | some (e, pl) => [mkReply tid cmdByte e pl]), none⟩
    else if cmdByte = 4 then
      ⟨st2,
        (match handleReadReg ext st2.i2c_addr st2.vd payload with
         | none => []
         | some (e, pl) => [mkReply tid cmdByte e pl]), none⟩
    else if cmdByte = 5 then
      ⟨st2, [mkReply tid cmdByte 0 [1000 % 256]], none⟩
    else
      ⟨st2, [], none⟩

/-- The packet-draining loop of `CEngine::task` over the queued packets, in
arrival order.  A packet shorter than 5 bytes executes `return`, which
leaves `task()` entirely: no reply, no state change, and no further packet
is ever taken from the queue. -/
def run (ext : I2CExt) (st : Engine) : List (List Nat) → Engine × List (List Nat)
  | [] => (st, [])
  | p :: rest =>
    if p.length < 5 then (st, [])
    else
      let o := step ext st p
      let rec_ := run ext o.st rest
      (rec_.1, o.sent ++ rec_.2)

/-! ### List helpers -/

theorem getD_set_self (l : List Nat) (i a : Nat) (h : i < l.length) :
    (l.set i a).getD i 0 = a := by
  simp [List.getD_eq_getElem?_getD, List.getElem?_set_self', List.getElem?_eq_getElem h]

theorem getD_set_ne (l : List Nat) (i j a : Nat) (h : i ≠ j) :
    (l.set i a).getD j 0 = l.getD j 0 := by
  simp [List.getD_eq_getElem?_getD, List.getElem?_set_ne h]

theorem map_mod_eq_self (d : List Nat) (h : ∀ b ∈ d, b < 256) :
    d.map (fun b => b % 256) = d := by
  induction d with
  | nil => rfl
  | cons b rest ih =>
      simp only [List.map_cons, List.cons.injEq]
      exact ⟨Nat.mod_eq_of_lt (h b (by simp)), ih fun x hx => h x (by simp [hx])⟩

/-! ### Virtual-device lemmas -/

theorem vdWrite_length (d : List Nat) : ∀ (vd : List Nat) (reg : Nat),
    (vdWrite vd reg d).length = vd.length := by
  induction d with
  | nil => intro vd reg; rfl
  | cons b rest ih => intro vd reg; rw [vdWrite, ih]; simp

theorem vdWrite_getD_untouched (d : List Nat) : ∀ (vd : List Nat) (reg k : Nat),
    (∀ j, j < d.length → (reg + j) % 256 ≠ k) →
    (vdWrite vd reg d).getD k 0 = vd.getD k 0 := by
  induction d with
  | nil => intro vd reg k _; rfl
  | cons b rest ih =>
      intro vd reg k h
      rw [vdWrite, ih _ _ _ fun j hj => by
        have := h (j + 1) (by simp; omega)
        have harr : reg + (j + 1) = reg + 1 + j := by omega
        simpa [harr] using this]
      exact getD_set_ne _ _ _ _ (by simpa using h 0 (by simp))

theorem vdRead_vdWrite (d : List Nat) : ∀ (vd : List Nat) (reg : Nat),
    vd.length = 256 → d.length ≤ 256 →
    vdRead (vdWrite vd reg d) reg d.length = d.map (fun b => b % 256) := by
  induction d with
  | nil => intro vd reg _ _; rfl
  | cons b rest ih =>
      intro vd reg hvd hlen
      have hvd' : (vd.set (reg % 256) (b % 256)).length = 256 := by simp [hvd]
      have htail := ih (vd.set (reg % 256) (b % 256)) (reg + 1) hvd'
        (by simp at hlen; omega)
      have hhead :
          (vdWrite (vd.set (reg % 256) (b % 256)) (reg + 1) rest).getD (reg % 256) 0
            = b % 256 := by
        rw [vdWrite_getD_untouched]
        · exact getD_set_self _ _ _ (by rw [hvd]; exact Nat.mod_lt _ (by norm_num))
        · intro j hj heq
          have hj' : j + 1 < 256 := by simp at hlen; omega
          omega
      simp only [List.length_cons, vdWrite, vdRead, List.map_cons]
      rw [hhead, htail]

/-! ### WRITE_REG entry encoding (the wire layout of one entry, from the
command format comment in `handle_cmd_write_reg`) -/

/-- One WRITE_REG entry: a register-number width, a register number and the
data bytes to write there. -/
structure WEntry where
  w : Nat
  reg : Nat
  data : List Nat
  deriving DecidableEq, Repr

/-- The wire image of one entry: 1 width byte, `w` big-endian register
bytes, 2 big-endian length bytes, then the data. -/
def encodeEntry (e : WEntry) : List Nat :=
  e.w :: (beBytes e.w e.reg ++ (beBytes 2 e.data.length ++ e.data))

/-- The wire image of a WRITE_REG payload: the entries back to back. -/
def encodeEntries (es : List WEntry) : List Nat :=
  (es.map encodeEntry).flatten

/-- Representability of an entry on the wire: the width fits in its byte,
the register number fits in `w` bytes and the data length in two bytes. -/
def goodEntry (e : WEntry) : Prop :=
  e.w < 256 ∧ e.reg < 256 ^ e.w ∧ e.data.length < 65536

instance (e : WEntry) : Decidable (goodEntry e) := by
  unfold goodEntry; exact inferInstance

/-! ### Unfolding lemmas for the WRITE_REG loop -/

theorem wrLoop_nil (ext : I2CExt) (addr : Nat) (vd : List Nat) :
    wrLoop ext addr vd [] = ⟨some (0, []), [], vd⟩ := by
  rw [wrLoop]
  simp

theorem wrLoop_entry (ext : I2CExt) (addr : Nat) (vd : List Nat)
    (w reg wlen : Nat) (suf : List Nat)
    (hw : w < 256) (hreg : reg < 256 ^ w) (hlen : wlen < 65536) :
    wrLoop ext addr vd (w :: (beBytes w reg ++ (beBytes 2 wlen ++ suf))) =
      if suf.length < wlen then ⟨some (1, []), [], vd⟩
      else
        if (i2c_write ext addr vd reg w (suf.take wlen)).1 then
          ⟨(wrLoop ext addr (i2c_write ext addr vd reg w (suf.take wlen)).2
              (suf.drop wlen)).res,
            (reg, w, suf.take wlen)
              :: (wrLoop ext addr (i2c_write ext addr vd reg w (suf.take wlen)).2
                  (suf.drop wlen)).trace,
            (wrLoop ext addr (i2c_write ext addr vd reg w (suf.take wlen)).2
              (suf.drop wlen)).vd⟩
        else ⟨some (2, [reg % 256]), [(reg, w, suf.take wlen)],
              (i2c_write ext addr vd reg w (suf.take wlen)).2⟩ := by
  have hww : w % 256 = w := Nat.mod_eq_of_lt hw
  have h2 : wlen < 256 ^ 2 := by norm_num; exact hlen
  rw [wrLoop]
  rw [dif_neg (by simp)]
  simp only [List.headD_cons, List.tail_cons, hww,
    List.take_left' (beBytes_length w reg), List.drop_left' (beBytes_length w reg),
    beVal_beBytes w reg hreg,
    List.take_left' (beBytes_length 2 wlen), List.drop_left' (beBytes_length 2 wlen),
    beVal_beBytes 2 wlen h2]
  rw [if_neg (by simp only [List.length_append, beBytes_length]; omega)]
  rw [if_neg (by simp only [List.length_append, beBytes_length]; omega)]

theorem wrLoop_cons (ext : I2CExt) (addr : Nat) (vd : List Nat)
    (e : WEntry) (rest : List Nat) (hg : goodEntry e) :
    wrLoop ext addr vd (encodeEntry e ++ rest) =
      if (i2c_write ext addr vd e.reg e.w e.data).1 then
        ⟨(wrLoop ext addr (i2c_write ext addr vd e.reg e.w e.data).2 rest).res,
          (e.reg, e.w, e.data)
            :: (wrLoop ext addr (i2c_write ext addr vd e.reg e.w e.data).2 rest).trace,
          (wrLoop ext addr (i2c_write ext addr vd e.reg e.w e.data).2 rest).vd⟩
      else ⟨some (2, [e.reg % 256]), [(e.reg, e.w, e.data)],
            (i2c_write ext addr vd e.reg e.w e.data).2⟩ := by
  obtain ⟨hw, hreg, hlen⟩ := hg
  have hEnc : encodeEntry e ++ rest
      = e.w :: (beBytes e.w e.reg ++ (beBytes 2 e.data.length ++ (e.data ++ rest))) := by
    simp [encodeEntry]
  rw [hEnc, wrLoop_entry ext addr vd e.w e.reg e.data.length (e.data ++ rest) hw hreg hlen]
  rw [if_neg (by simp only [List.length_append]; omega)]
  rw [List.take_left, List.drop_left]

/-- The virtual-device contents after the bus writes of a list of entries. -/
def vdAfter (ext : I2CExt) (addr : Nat) (es : List WEntry) (vd : List Nat) : List Nat :=
  es.foldl (fun v e => (i2c_write ext addr v e.reg e.w e.data).2) vd

theorem wrLoop_append (ext : I2CExt) (addr : Nat) (es : List WEntry) (suf : List Nat) :
    ∀ vd, (∀ e ∈ es, goodEntry e) →
      (∀ e ∈ es, addr = 0 ∨ ext.writeReg addr e.reg e.w e.data = true) →
      wrLoop ext addr vd (encodeEntries es ++ suf) =
        ⟨(wrLoop ext addr (vdAfter ext addr es vd) suf).res,
          es.map (fun e => (e.reg, e.w, e.data))
            ++ (wrLoop ext addr (vdAfter ext addr es vd) suf).trace,
          (wrLoop ext addr (vdAfter ext addr es vd) suf).vd⟩ := by
  induction es with
  | nil => intro vd _ _; simp [encodeEntries, vdAfter]
  | cons e es ih =>
      intro vd hg hok
      have hEnc : encodeEntries (e :: es) ++ suf
          = encodeEntry e ++ (encodeEntries es ++ suf) := by
        simp [encodeEntries]
      have hfst : (i2c_write ext addr vd e.reg e.w e.data).1 = true := by
        rcases hok e (by simp) with h0 | h1
        · simp [i2c_write, h0]
        · by_cases ha : addr = 0 <;> simp [i2c_write, ha, h1]
      rw [hEnc, wrLoop_cons ext addr vd e _ (hg e (by simp)), if_pos hfst,
        ih _ (fun x hx => hg x (by simp [hx])) (fun x hx => hok x (by simp [hx]))]
      simp [vdAfter]

/-! ### Packet-header and reply-shape lemmas -/

theorem getD_append_cons (l t : List Nat) (b d : Nat) :
    (l ++ b :: t).getD l.length d = b := by
  simp [List.getD_eq_getElem?_getD, List.getElem?_append_right (Nat.le_refl l.length)]

theorem take4_beBytes4 (T : Nat) (t : List Nat) :
    (beBytes 4 T ++ t).take 4 = beBytes 4 T :=
  List.take_left' (beBytes_length 4 T)

theorem beVal_take4_beBytes4 (T : Nat) (t : List Nat) (hT : T < 2 ^ 32) :
    beVal ((beBytes 4 T ++ t).take 4) = T := by
  rw [take4_beBytes4, beVal_beBytes 4 T (by norm_num; exact hT)]

theorem getD4_beBytes4 (T b : Nat) (t : List Nat) :
    (beBytes 4 T ++ b :: t).getD 4 0 = b := by
  have h := getD_append_cons (beBytes 4 T) t b 0
  simpa using h

theorem mkReply_eq_beBytes (tid cmd err : Nat) (pl : List Nat) :
    mkReply tid cmd err pl = beBytes 4 tid ++ cmd % 256 :: err % 256 :: pl := by
  simp [mkReply, beBytes, Nat.div_div_eq_div_mul]

theorem mkReply_length (tid cmd err : Nat) (pl : List Nat) :
    (mkReply tid cmd err pl).length = 6 + pl.length := by
  simp [mkReply]; try omega

/-- The dedup branch of `CEngine::task`: a remembered id equal to the
incoming one, with a command that does not clear the dedup flag, makes the
packet a no-op. -/
theorem step_dedup_drop (ext : I2CExt) (st : Engine) (p : List Nat)
    (hhave : st.have_id = true) (htid : beVal (p.take 4) = st.last_id)
    (hc0 : p.getD 4 0 % 256 ≠ 0) (hc1 : p.getD 4 0 % 256 ≠ 1) :
    step ext st p = ⟨st, [], none⟩ := by
  simp only [step]
  rw [if_neg (not_or.mpr ⟨hc0, hc1⟩), if_pos (show st.have_id = true ∧ _ from ⟨hhave, htid⟩)]

/-- Every reply a `task` iteration sends is a `mkReply` built from the
incoming packet's transaction id and command byte. -/
theorem step_sent_shape (ext : I2CExt) (st : Engine) (p : List Nat) :
    (step ext st p).sent = [] ∨
      ∃ e pl, (step ext st p).sent
          = [mkReply (beVal (p.take 4)) (p.getD 4 0 % 256) e pl] := by
  simp only [step]
  generalize (if p.getD 4 0 % 256 = 0 ∨ p.getD 4 0 % 256 = 1
      then { st with have_id := false } else st) = st1
  split
  · exact Or.inl rfl
  · split
    · exact Or.inr ⟨0, [], rfl⟩
    · split
      · exact Or.inr ⟨0, [], rfl⟩
      · split
        · exact Or.inr ⟨0, [], rfl⟩
        · split
          · rcases h : (wrLoop ext _ _ _).res with _ | ⟨e, pl⟩
            · exact Or.inl (by simp [h])
            · exact Or.inr ⟨e, pl, by simp [h]⟩
          · split
            · rcases h : handleReadReg ext _ _ _ with _ | ⟨e, pl⟩
              · exact Or.inl (by simp [h])
              · exact Or.inr ⟨e, pl, by simp [h]⟩
            · split
              · exact Or.inr ⟨0, [1000 % 256], rfl⟩
              · exact Or.inl rfl

theorem step_clientPort (ext : I2CExt) (st : Engine) (p : List Nat)
    (hc : p.getD 4 0 % 256 = 1) :
    step ext st p = ⟨⟨true, beVal (p.take 4), 1, st.i2c_addr, st.vd⟩,
      [mkReply (beVal (p.take 4)) 1 0 []],
      some ((p.drop 5).getD 0 0 % 256 * 256 + (p.drop 5).getD 1 0 % 256)⟩ := by
  simp only [step, hc]
  norm_num

/-! ### Transport-task reply destination

`CUDPServer` (udp_server.h, udp_server.cpp): `recvfrom` records the most
recent sender in `source_addr` on every received datagram, and
`CUDPServer::reply` overwrites the destination port with the listening
port (`sockaddr_source.sin_port = htons(SERVER_PORT);`) before `sendto`.
The class has no `set_client_port` member, so the port the engine's
`handle_cmd_client_port` hands to `UDPServer.set_client_port` never
reaches any transport state. -/

/-- The UDP port the server listens on (`SERVER_PORT` in udp_server.cpp). -/
def SERVER_PORT : Nat := 1182

/-- The transport's record of the most recent sender, as `recvfrom` fills
`source_addr` (network address and source port) on every received
datagram. -/
structure UDPDest where
  lastAddr : Nat
  lastSrcPort : Nat
  deriving DecidableEq, Repr

/-- The engine session state together with the transport's recorded
sender. -/
structure Sys where
  eng : Engine
  udp : UDPDest
  deriving DecidableEq, Repr

/-- One received datagram moving through the system: the transport records
the sender, the engine's `task` iteration processes the packet (packets
shorter than 5 bytes produce nothing), and `CUDPServer::reply` sends every
reply datagram to the recorded sender's address with the destination port
overwritten to `SERVER_PORT`; the value the engine hands to the absent
`set_client_port` member is discarded.  Outputs are
`(destination address, destination port, reply bytes)` triples. -/
def sysStep (ext : I2CExt) (s : Sys) (srcAddr srcPort : Nat) (p : List Nat) :
    Sys × List (Nat × Nat × List Nat) :=
  let u1 : UDPDest := ⟨srcAddr, srcPort⟩
  if p.length < 5 then (⟨s.eng, u1⟩, [])
  else
    let o := step ext s.eng p
    (⟨o.st, u1⟩, o.sent.map fun r => (u1.lastAddr, SERVER_PORT, r))

/-- The system over a sequence of incoming datagrams
`(sender address, sender source port, bytes)`.  As in `run`, a packet
shorter than 5 bytes makes `CEngine::task` return, so no later datagram is
ever answered. -/
def runSys (ext : I2CExt) (s : Sys) :
    List (Nat × Nat × List Nat) → Sys × List (Nat × Nat × List Nat)
  | [] => (s, [])
  | (a, sp, p) :: rest =>
    if p.length < 5 then (⟨s.eng, ⟨a, sp⟩⟩, [])
    else
      let o := sysStep ext s a sp p
      let r := runSys ext o.1 rest
      (r.1, o.2 ++ r.2)

theorem sysStep_out_dest (ext : I2CExt) (s : Sys) (a sp : Nat) (p : List Nat) :
    ∀ out ∈ (sysStep ext s a sp p).2, out.1 = a ∧ out.2.1 = SERVER_PORT := by
  intro out hout
  by_cases hlen : p.length < 5
  · simp [sysStep, hlen] at hout
  · simp only [sysStep, if_neg hlen] at hout
    rcases List.mem_map.mp hout with ⟨r, _, rfl⟩
    exact ⟨rfl, rfl⟩

/-- A bus oracle whose external operations all fail; used for concrete
evaluations of the failure paths. -/
def extFail : I2CExt :=
  ⟨fun _ _ _ _ => false, fun _ _ _ => false, fun _ _ => false, fun _ _ => []⟩

/-! ### Claim theorems -/

/-- C1: with a remembered `last_transaction_id`, an incoming packet of
length ≥ 5 whose big-endian transaction id equals it and whose command
byte is neither `INIT_SEQ` (0) nor `SET_CLIENT_PORT` (1) is dropped
silently: no reply, no `set_client_port` call, and the whole engine state
(dedup state, bus address, virtual device) is left unchanged. -/
theorem dedup_drops_same_id_silently (ext : I2CExt) (st : Engine) (p : List Nat)
    (_h5 : 5 ≤ p.length)
    (hhave : st.have_id = true) (htid : beVal (p.take 4) = st.last_id)
    (hc0 : p.getD 4 0 % 256 ≠ 0) (hc1 : p.getD 4 0 % 256 ≠ 1) :
    step ext st p = ⟨st, [], none⟩ :=
  step_dedup_drop ext st p hhave htid hc0 hc1

/-- C1 witness: a concrete WRITE_REG retransmission with the remembered id
7 is dropped without any effect. -/
theorem dedup_drops_same_id_silently_witness :
    step extTrue ⟨true, 7, 0, 0x62, List.replicate 256 0⟩ [0, 0, 0, 7, 3]
      = ⟨⟨true, 7, 0, 0x62, List.replicate 256 0⟩, [], none⟩ :=
  dedup_drops_same_id_silently extTrue ⟨true, 7, 0, 0x62, List.replicate 256 0⟩
    [0, 0, 0, 7, 3] (by decide) (by decide) (by decide) (by decide) (by decide)

/-- C2: a WRITE_REG payload that is a well-formed sequence of entries
(1 width byte, `w` big-endian register bytes, 2 big-endian length bytes,
then the data) is consumed front to back; with every bus write succeeding,
each entry triggers exactly one bus write, in payload order, and the fully
consumed payload is acknowledged with error code `ERR_NONE` (0) and no
reply payload. -/
theorem writeReg_entries_in_order (ext : I2CExt) (addr : Nat) (vd : List Nat)
    (es : List WEntry) (hg : ∀ e ∈ es, goodEntry e)
    (hok : ∀ e ∈ es, addr = 0 ∨ ext.writeReg addr e.reg e.w e.data = true) :
    (wrLoop ext addr vd (encodeEntries es)).trace
        = es.map (fun e => (e.reg, e.w, e.data)) ∧
      (wrLoop ext addr vd (encodeEntries es)).res = some (0, []) := by
  have h := wrLoop_append ext addr es [] vd hg hok
  rw [List.append_nil] at h
  rw [h, wrLoop_nil]
  simp

/-- C2 witness: the payload `[1,0x10,0,2,0xAA,0xBB, 1,0x20,0,1,0xCC]`
performs exactly two bus writes, to 0x10 then 0x20, and replies
`ERR_NONE`. -/
theorem writeReg_entries_in_order_witness :
    (wrLoop extTrue 0 (List.replicate 256 0)
        [1, 0x10, 0, 2, 0xAA, 0xBB, 1, 0x20, 0, 1, 0xCC]).trace
        = [(0x10, 1, [0xAA, 0xBB]), (0x20, 1, [0xCC])] ∧
      (wrLoop extTrue 0 (List.replicate 256 0)
        [1, 0x10, 0, 2, 0xAA, 0xBB, 1, 0x20, 0, 1, 0xCC]).res = some (0, []) := by
  have h := writeReg_entries_in_order extTrue 0 (List.replicate 256 0)
    [⟨1, 0x10, [0xAA, 0xBB]⟩, ⟨1, 0x20, [0xCC]⟩] (by decide) (fun e _ => Or.inl rfl)
  have henc : encodeEntries [⟨1, 0x10, [0xAA, 0xBB]⟩, ⟨1, 0x20, [0xCC]⟩]
      = [1, 0x10, 0, 2, 0xAA, 0xBB, 1, 0x20, 0, 1, 0xCC] := by rfl
  rw [henc] at h
  exact ⟨h.1.trans (by rfl), h.2⟩

/-- C3: WRITE_REG processing stops at the first failing entry.  If an
entry's declared length exceeds the bytes remaining after its header, no
bus write happens for it and the reply carries `ERR_NOT_ENUF_DATA` (1);
if an entry's bus write fails, the reply carries `ERR_I2C_WRITE` (2) with
the register's low byte as its one-byte payload.  In both cases nothing
after the failing entry is processed, and the earlier entries' writes are
kept (the trace keeps them and the virtual device stays at the
post-prefix contents). -/
theorem writeReg_stops_at_first_failure :
    (∀ (ext : I2CExt) (addr : Nat) (vd : List Nat) (es : List WEntry)
        (w reg wlen : Nat) (short : List Nat),
      (∀ e ∈ es, goodEntry e) →
      (∀ e ∈ es, addr = 0 ∨ ext.writeReg addr e.reg e.w e.data = true) →
      w < 256 → reg < 256 ^ w → wlen < 65536 → short.length < wlen →
      wrLoop ext addr vd
          (encodeEntries es ++ (w :: (beBytes w reg ++ (beBytes 2 wlen ++ short))))
        = ⟨some (1, []), es.map (fun e => (e.reg, e.w, e.data)),
            vdAfter ext addr es vd⟩) ∧
    (∀ (ext : I2CExt) (addr : Nat) (vd : List Nat) (es : List WEntry)
        (e : WEntry) (rest : List Nat),
      (∀ x ∈ es, goodEntry x) →
      (∀ x ∈ es, addr = 0 ∨ ext.writeReg addr x.reg x.w x.data = true) →
      goodEntry e → addr ≠ 0 → ext.writeReg addr e.reg e.w e.data = false →
      wrLoop ext addr vd (encodeEntries es ++ (encodeEntry e ++ rest))
        = ⟨some (2, [e.reg % 256]),
            es.map (fun x => (x.reg, x.w, x.data)) ++ [(e.reg, e.w, e.data)],
            vdAfter ext addr es vd⟩) := by
  constructor
  · intro ext addr vd es w reg wlen short hg hok hw hreg hlen hshort
    rw [wrLoop_append ext addr es _ vd hg hok,
      wrLoop_entry ext addr (vdAfter ext addr es vd) w reg wlen short hw hreg hlen,
      if_pos hshort]
    simp
  · intro ext addr vd es e rest hg hok hge ha hfail
    have hfst : (i2c_write ext addr (vdAfter ext addr es vd) e.reg e.w e.data).1 = false := by
      simp [i2c_write, ha, hfail]
    have hsnd : (i2c_write ext addr (vdAfter ext addr es vd) e.reg e.w e.data).2
        = vdAfter ext addr es vd := by
      simp [i2c_write, ha]
    rw [wrLoop_append ext addr es _ vd hg hok,
      wrLoop_cons ext addr (vdAfter ext addr es vd) e rest hge,
      if_neg (by simp [hfst]), hsnd]
    try simp

/-- C3 witness: an entry claiming 10 bytes with only 3 remaining replies
`NOT_ENUF_DATA` with no bus write, and a failing external bus write for
register 0x34 replies error 2 with payload `[0x34]`. -/
theorem writeReg_stops_at_first_failure_witness :
    wrLoop extTrue 98 (List.replicate 256 0) [1, 5, 0, 10, 1, 2, 3]
        = ⟨some (1, []), [], List.replicate 256 0⟩ ∧
      wrLoop extFail 98 (List.replicate 256 0) [1, 0x34, 0, 1, 0xAB]
        = ⟨some (2, [0x34]), [(0x34, 1, [0xAB])], List.replicate 256 0⟩ := by
  constructor
  · have h := writeReg_stops_at_first_failure.1 extTrue 98 (List.replicate 256 0) []
      1 5 10 [1, 2, 3] (by decide) (by decide) (by decide) (by decide) (by decide) (by decide)
    exact h
  · have h := writeReg_stops_at_first_failure.2 extFail 98 (List.replicate 256 0) []
      ⟨1, 0x34, [0xAB]⟩ [] (by decide) (by decide) (by decide) (by decide) (by rfl)
    exact h

set_option maxRecDepth 8192 in
/-- C4 (code-bug evidence): a packet shorter than 5 bytes produces no reply
and no state change, but `if (packet.length < 5) return;` in
`CEngine::task` (whose comment says "ignore it") leaves the task function
entirely instead of continuing the loop, so a valid request queued behind
the short packet is never processed: the two-packet queue yields no reply
at all, while the same valid request alone is acknowledged. -/
theorem short_packet_no_reply_but_task_returns :
    run extTrue initEngine [[1, 2, 3], [0, 0, 0, 1, 0]] = (initEngine, []) ∧
      run extTrue initEngine [[0, 0, 0, 1, 0]]
        = (⟨true, 1, 0, 0x62, List.replicate 256 0⟩, [mkReply 1 0 0 []]) := by
  exact ⟨by decide, by decide⟩

theorem step_cmd0 (ext : I2CExt) (st : Engine) (p : List Nat)
    (hc : p.getD 4 0 % 256 = 0) :
    step ext st p = ⟨⟨true, beVal (p.take 4), 0, st.i2c_addr, st.vd⟩,
      [mkReply (beVal (p.take 4)) 0 0 []], none⟩ := by
  simp only [step, hc]
  norm_num

set_option maxRecDepth 8192 in
/-- C5 counterexample: `INIT_SEQ` with id 5 followed by `SET_BUS_ADDRESS`
with the same id 5: the second request is dropped as a duplicate — only the
`INIT_SEQ` acknowledgement is sent and the bus address stays 0x62 — because
`INIT_SEQ` itself records 5 as the most recent transaction id, refuting the
claim that any command reusing the id of the preceding `INIT_SEQ` is
accepted. -/
theorem init_seq_then_same_id_dropped_cex :
    run extTrue initEngine [[0, 0, 0, 5, 0], [0, 0, 0, 5, 2, 0x10]]
      = (⟨true, 5, 0, 0x62, List.replicate 256 0⟩, [mkReply 5 0 0 []]) := by
  decide

/-- C5 (amended): `INIT_SEQ` with id T records T as the most recent
transaction id, so an immediately following packet with the same id T is
accepted (it replies) iff its command byte is `INIT_SEQ` (0) or
`SET_CLIENT_PORT` (1) — the commands that clear the dedup flag before
their own dedup check; any other command with id T is dropped as a
duplicate with no reply and no state change. -/
theorem init_seq_then_same_id (ext : I2CExt) (st : Engine) (T : Nat)
    (hT : T < 2 ^ 32) (c : Nat) (rest : List Nat) :
    ((c % 256 = 0 ∨ c % 256 = 1) →
      (step ext (step ext st (beBytes 4 T ++ [0])).st
          (beBytes 4 T ++ c :: rest)).sent ≠ []) ∧
    (c % 256 ≠ 0 → c % 256 ≠ 1 →
      step ext (step ext st (beBytes 4 T ++ [0])).st (beBytes 4 T ++ c :: rest)
        = ⟨(step ext st (beBytes 4 T ++ [0])).st, [], none⟩) := by
  have hinit : (step ext st (beBytes 4 T ++ [0])).st
      = ⟨true, T, 0, st.i2c_addr, st.vd⟩ := by
    rw [step_cmd0 ext st (beBytes 4 T ++ [0])
        (by rw [getD4_beBytes4 T 0 ([] : List Nat)]),
      beVal_take4_beBytes4 T [0] hT]
  have hgetD : (beBytes 4 T ++ c :: rest).getD 4 0 = c := getD4_beBytes4 T c rest
  have htid : beVal ((beBytes 4 T ++ c :: rest).take 4) = T :=
    beVal_take4_beBytes4 T _ hT
  rw [hinit]
  constructor
  · rintro (h0 | h1)
    · rw [step_cmd0 ext _ _ (by rw [hgetD]; exact h0)]
      simp
    · rw [step_clientPort ext _ _ (by rw [hgetD]; exact h1)]
      simp
  · intro hc0 hc1
    exact step_dedup_drop ext _ _ rfl htid
      (by rw [hgetD]; exact hc0) (by rw [hgetD]; exact hc1)

/-- C5 (amended) witness: with id 9, a following `SET_BUS_ADDRESS` (code 2)
reusing id 9 is dropped, while a following `INIT_SEQ` reusing id 9 gets a
reply. -/
theorem init_seq_then_same_id_witness :
    step extTrue (step extTrue initEngine (beBytes 4 9 ++ [0])).st
        (beBytes 4 9 ++ 2 :: [0x10])
      = ⟨(step extTrue initEngine (beBytes 4 9 ++ [0])).st, [], none⟩ ∧
    (step extTrue (step extTrue initEngine (beBytes 4 9 ++ [0])).st
        (beBytes 4 9 ++ 0 :: [])).sent ≠ [] := by
  exact ⟨(init_seq_then_same_id extTrue initEngine 9 (by norm_num) 2 [0x10]).2
      (by decide) (by decide),
    (init_seq_then_same_id extTrue initEngine 9 (by norm_num) 0 []).1
      (Or.inl (by decide))⟩

/-- C6: with bus address 0, writing the bytes `d` at register R on the
256-byte virtual device and then reading back `d.length` bytes at R
returns exactly `d` (both operations touch index `(R+i) mod 256` for the
i-th byte), and in particular a 2-byte write at register 0xFF lands at
virtual-device indices 0xFF and 0x00. -/
theorem virtual_device_roundtrip (ext : I2CExt) (vd : List Nat)
    (R L w1 w2 : Nat) (d : List Nat)
    (hvd : vd.length = 256) (hd : d.length = L) (hL1 : 1 ≤ L) (hL : L ≤ 256)
    (hb : ∀ b ∈ d, b < 256) :
    i2c_read ext 0 (i2c_write ext 0 vd R w1 d).2 R w2 L = some d ∧
      ∀ (a b : Nat) (vd2 : List Nat), vd2.length = 256 →
        (i2c_write ext 0 vd2 0xFF 1 [a, b]).2.getD 0xFF 0 = a % 256 ∧
        (i2c_write ext 0 vd2 0xFF 1 [a, b]).2.getD 0 0 = b % 256 := by
  constructor
  · have hw : (i2c_write ext 0 vd R w1 d).2 = vdWrite vd R d := by simp [i2c_write]
    rw [hw]
    simp only [i2c_read, if_pos]
    subst hd
    rw [vdRead_vdWrite d vd R hvd hL, map_mod_eq_self d hb]
  · intro a b vd2 h2
    have hw : (i2c_write ext 0 vd2 0xFF 1 [a, b]).2
        = (vd2.set 255 (a % 256)).set 0 (b % 256) := by
      norm_num [i2c_write, vdWrite]
    rw [hw]
    constructor
    · rw [getD_set_ne _ _ _ _ (by norm_num)]
      exact getD_set_self _ _ _ (by rw [h2]; norm_num)
    · exact getD_set_self _ _ _ (by simp [h2])

set_option maxRecDepth 8192 in
/-- C6 witness: writing `[1,2,3,4]` at register 5 then reading 4 bytes at 5
returns `[1,2,3,4]`, and a 2-byte write at 0xFF stores its bytes at
indices 0xFF and 0x00. -/
theorem virtual_device_roundtrip_witness :
    i2c_read extTrue 0 (i2c_write extTrue 0 (List.replicate 256 0) 5 1 [1, 2, 3, 4]).2 5 1 4
        = some [1, 2, 3, 4] ∧
      (i2c_write extTrue 0 (List.replicate 256 0) 0xFF 1 [7, 9]).2.getD 0xFF 0 = 7 ∧
      (i2c_write extTrue 0 (List.replicate 256 0) 0xFF 1 [7, 9]).2.getD 0 0 = 9 := by
  have h := virtual_device_roundtrip extTrue (List.replicate 256 0) 5 4 1 1 [1, 2, 3, 4]
    (by decide) (by decide) (by decide) (by decide) (by decide)
  have h2 := h.2 7 9 (List.replicate 256 0) (by decide)
  exact ⟨h.1, h2.1, h2.2⟩

/-- C7: every reply datagram sent by a `task` iteration is exactly the
4-byte big-endian transaction id of the request being answered, the echoed
command byte, one error-code byte, then the optional payload; with an
empty payload the reply is exactly 6 bytes long. -/
theorem reply_format_header (ext : I2CExt) (st : Engine) (p : List Nat)
    (r : List Nat) (hr : r ∈ (step ext st p).sent) :
    ∃ err pl, err < 256 ∧
      r = beBytes 4 (beVal (p.take 4)) ++ p.getD 4 0 % 256 :: err :: pl ∧
      (pl = [] → r.length = 6) := by
  rcases step_sent_shape ext st p with h | ⟨e, pl, h⟩
  · rw [h] at hr; cases hr
  · rw [h] at hr
    have hre : r = mkReply (beVal (p.take 4)) (p.getD 4 0 % 256) e pl := by
      simpa using hr
    refine ⟨e % 256, pl, Nat.mod_lt _ (by norm_num), ?_, ?_⟩
    · rw [hre, mkReply_eq_beBytes]
      simp [Nat.mod_mod_of_dvd]
    · intro hpl
      rw [hre, hpl, mkReply_length]
      rfl

/-- C7 witness: the acknowledgement of a concrete `INIT_SEQ` request with
transaction id 2 has the claimed 6-byte shape. -/
theorem reply_format_header_witness :
    ∃ err pl, err < 256 ∧
      mkReply 2 0 0 [] = beBytes 4 (beVal (([0, 0, 0, 2, 0] : List Nat).take 4))
        ++ ([0, 0, 0, 2, 0] : List Nat).getD 4 0 % 256 :: err :: pl ∧
      (pl = [] → (mkReply 2 0 0 []).length = 6) :=
  reply_format_header extTrue initEngine [0, 0, 0, 2, 0] (mkReply 2 0 0 []) (by decide)

set_option maxRecDepth 8192 in
/-- C8 counterexample: after a `SET_CLIENT_PORT` request carrying port
9000 (bytes 35, 40) is processed and acknowledged, the next reply is sent
to the new sender's address at port 1182 — the hardcoded `SERVER_PORT` —
not at port 9000, refuting the claim that subsequent replies go to the
client-set port. -/
theorem client_port_reply_port_hardcoded_cex :
    (runSys extTrue ⟨initEngine, ⟨0, 0⟩⟩
        [(10, 5555, [0, 0, 0, 1, 1, 35, 40]), (42, 7777, [0, 0, 0, 2, 0])]).2
      = [(10, 1182, mkReply 1 1 0 []), (42, 1182, mkReply 2 0 0 [])] ∧
      (1182 : Nat) ≠ 35 % 256 * 256 + 40 % 256 := by
  exact ⟨by decide, by decide⟩

/-- C8 (amended): a `SET_CLIENT_PORT` request is acknowledged with error
`NONE`, but it does not change where replies go: every reply datagram —
before and after it — is sent to the network address of the most recent
sender with the destination port overwritten to the listening port
`SERVER_PORT` (1182), regardless of the source port the triggering request
arrived from; the client-supplied port never affects any reply, because
`CUDPServer::reply` hardcodes the port and `CUDPServer` has no
`set_client_port` member for the engine's call to reach. -/
theorem replies_hardcode_server_port :
    (∀ (ext : I2CExt) (s : Sys) (a sp : Nat) (p : List Nat),
      5 ≤ p.length → p.getD 4 0 % 256 = 1 →
      (sysStep ext s a sp p).2
        = [(a, SERVER_PORT, mkReply (beVal (p.take 4)) 1 0 [])]) ∧
    (∀ (ext : I2CExt) (s : Sys) (a sp : Nat) (p : List Nat),
      ∀ out ∈ (sysStep ext s a sp p).2, out.1 = a ∧ out.2.1 = SERVER_PORT) ∧
    (∀ (ext : I2CExt) (s : Sys) (evs : List (Nat × Nat × List Nat)),
      ∀ out ∈ (runSys ext s evs).2, out.2.1 = SERVER_PORT) := by
  refine ⟨?_, fun ext s a sp p => sysStep_out_dest ext s a sp p, ?_⟩
  · intro ext s a sp p h5 hc
    simp only [sysStep, if_neg (by omega : ¬ p.length < 5),
      step_clientPort ext s.eng p hc]
    rfl
  · intro ext s evs
    induction evs generalizing s with
    | nil => intro out hout; simp [runSys] at hout
    | cons ev rest ih =>
        obtain ⟨a, sp, p⟩ := ev
        intro out hout
        by_cases hlen : p.length < 5
        · simp [runSys, hlen] at hout
        · have hout' : out ∈ (sysStep ext s a sp p).2
              ∨ out ∈ (runSys ext (sysStep ext s a sp p).1 rest).2 := by
            simpa [runSys, hlen] using hout
          rcases hout' with hm | hm
          · exact (sysStep_out_dest ext s a sp p out hm).2
          · exact ih (sysStep ext s a sp p).1 out hm

/-- C8 (amended) witness: a concrete `SET_CLIENT_PORT(9000)` request from
source port 5555 is acknowledged to the sender's address at port 1182, and
a later request from source port 7777 also gets its reply at port 1182. -/
theorem replies_hardcode_server_port_witness :
    (sysStep extTrue ⟨initEngine, ⟨0, 0⟩⟩ 10 5555 [0, 0, 0, 1, 1, 35, 40]).2
        = [(10, 1182, mkReply 1 1 0 [])] ∧
      ∀ out ∈ (runSys extTrue ⟨initEngine, ⟨10, 5555⟩⟩
          [(42, 7777, [0, 0, 0, 3, 0])]).2, out.2.1 = 1182 := by
  constructor
  · exact replies_hardcode_server_port.1 extTrue ⟨initEngine, ⟨0, 0⟩⟩ 10 5555
      [0, 0, 0, 1, 1, 35, 40] (by decide) (by decide)
  · intro out hout
    exact replies_hardcode_server_port.2.2 extTrue ⟨initEngine, ⟨10, 5555⟩⟩
      [(42, 7777, [0, 0, 0, 3, 0])] out hout

set_option maxRecDepth 8192 in
/-- C9 counterexample: a packet with unknown command 6 and id 7 yields no
reply yet records id 7 (as the claim says), but a later packet with the
*known* command `INIT_SEQ` (0) and the same id 7 is not dropped — it is
answered — because `INIT_SEQ` clears the dedup flag first; this refutes the
claim's "a later packet carrying a known command with that same
transaction id is dropped". -/
theorem unknown_command_then_known_cex :
    (step extTrue initEngine [0, 0, 0, 7, 6]).sent = [] ∧
      (step extTrue initEngine [0, 0, 0, 7, 6]).st
        = ⟨true, 7, 6, 0x62, List.replicate 256 0⟩ ∧
      (step extTrue ⟨true, 7, 6, 0x62, List.replicate 256 0⟩ [0, 0, 0, 7, 0]).sent
        = [mkReply 7 0 0 []] := by
  exact ⟨by decide, by decide, by decide⟩

/-- C9 (amended): a packet of length ≥ 5 that passes the dedup check and
whose command byte is none of the six known codes (0–5) produces no reply
and no `set_client_port` call, yet records its transaction id; a later
packet with the same id whose command is a known code *other than*
`INIT_SEQ` and `SET_CLIENT_PORT` (i.e. 2–5) is then dropped as a
duplicate. -/
theorem unknown_command_records_id (ext : I2CExt) (st : Engine) (p : List Nat)
    (_h5 : 5 ≤ p.length)
    (hpass : ¬(st.have_id = true ∧ beVal (p.take 4) = st.last_id))
    (hunk : 6 ≤ p.getD 4 0 % 256) :
    step ext st p
        = ⟨⟨true, beVal (p.take 4), p.getD 4 0 % 256, st.i2c_addr, st.vd⟩, [], none⟩ ∧
      ∀ p2 : List Nat, beVal (p2.take 4) = beVal (p.take 4) →
        2 ≤ p2.getD 4 0 % 256 → p2.getD 4 0 % 256 ≤ 5 →
        step ext ⟨true, beVal (p.take 4), p.getD 4 0 % 256, st.i2c_addr, st.vd⟩ p2
          = ⟨⟨true, beVal (p.take 4), p.getD 4 0 % 256, st.i2c_addr, st.vd⟩,
              [], none⟩ := by
  constructor
  · simp only [step]
    have hsel : (if p.getD 4 0 % 256 = 0 ∨ p.getD 4 0 % 256 = 1
        then { st with have_id := false } else st) = st := if_neg (by omega)
    rw [hsel, if_neg hpass, if_neg (by omega), if_neg (by omega),
      if_neg (by omega), if_neg (by omega), if_neg (by omega), if_neg (by omega)]
  · intro p2 htid h2 h5c
    exact step_dedup_drop ext _ p2 rfl htid (by omega) (by omega)

/-- C9 (amended) witness: unknown command 9 with id 7 records the id
silently; a later `SET_BUS_ADDRESS` (code 2) with id 7 is dropped. -/
theorem unknown_command_records_id_witness :
    step extTrue initEngine [0, 0, 0, 7, 9]
        = ⟨⟨true, 7, 9, 0x62, List.replicate 256 0⟩, [], none⟩ ∧
      step extTrue ⟨true, 7, 9, 0x62, List.replicate 256 0⟩ [0, 0, 0, 7, 2, 1]
        = ⟨⟨true, 7, 9, 0x62, List.replicate 256 0⟩, [], none⟩ := by
  have h := unknown_command_records_id extTrue initEngine [0, 0, 0, 7, 9]
    (by decide) (by decide) (by decide)
  exact ⟨h.1, h.2 [0, 0, 0, 7, 2, 1] (by decide) (by decide) (by decide)⟩

/-- C10 counterexample: a `READ_REG` request with an empty payload (packet
`[0,0,0,1,4]`, length exactly 5) makes `handle_cmd_read_reg` read its
register-width, register and length bytes from offsets 0–2 of a payload of
length 0 — in the total embedding the parse hits the out-of-range (`none`)
branch, refuting the claim that the `None` branch is unreachable for every
input packet. -/
theorem readReg_header_out_of_payload_cex :
    handleReadReg extTrue 0x62 (List.replicate 256 0)
      (([0, 0, 0, 1, 4] : List Nat).drop 5) = none := by
  decide

/-- C10 (amended): payload parsing stays within the payload only when every
header fits: a WRITE_REG payload that is a well-formed entry sequence
never reaches the out-of-range (`none`) branch, and a READ_REG payload
reaches it exactly when it is too short for its own header — it is avoided
whenever the payload holds at least `1 + width + 2` bytes. -/
theorem parser_in_bounds_for_wellformed :
    (∀ (ext : I2CExt) (addr : Nat) (vd : List Nat) (es : List WEntry),
      (∀ e ∈ es, goodEntry e) →
      (wrLoop ext addr vd (encodeEntries es)).res ≠ none) ∧
    (∀ (ext : I2CExt) (addr : Nat) (vd : List Nat) (p : List Nat),
      3 + p.headD 0 % 256 ≤ p.length →
      handleReadReg ext addr vd p ≠ none) := by
  constructor
  · intro ext addr vd es
    induction es generalizing vd with
    | nil =>
        intro _
        show (wrLoop ext addr vd ([] : List Nat)).res ≠ none
        rw [wrLoop_nil]
        simp
    | cons e es ih =>
        intro hg
        have hEnc : encodeEntries (e :: es) = encodeEntry e ++ encodeEntries es := by
          simp [encodeEntries]
        rw [hEnc, wrLoop_cons ext addr vd e _ (hg e (by simp))]
        by_cases hfst : (i2c_write ext addr vd e.reg e.w e.data).1 = true
        · rw [if_pos hfst]
          exact ih _ fun x hx => hg x (by simp [hx])
        · rw [if_neg hfst]
          simp
  · intro ext addr vd p h
    rw [List.headD_eq_head?_getD] at h
    unfold handleReadReg
    rw [if_neg (by omega),
      if_neg (by simp only [List.headD_eq_head?_getD, List.length_tail]; omega),
      if_neg (by simp only [List.headD_eq_head?_getD, List.length_drop,
        List.length_tail]; omega)]
    dsimp only
    split <;> simp

/-- C10 (amended) witness: a one-entry well-formed WRITE_REG payload and a
READ_REG payload holding its full 4-byte header both parse without
touching the out-of-range branch. -/
theorem parser_in_bounds_for_wellformed_witness :
    (wrLoop extTrue 0 (List.replicate 256 0) (encodeEntries [⟨1, 3, [5]⟩])).res ≠ none ∧
      handleReadReg extTrue 0 (List.replicate 256 0) [1, 3, 0, 2] ≠ none := by
  exact ⟨parser_in_bounds_for_wellformed.1 extTrue 0 (List.replicate 256 0)
      [⟨1, 3, [5]⟩] (by decide),
    parser_in_bounds_for_wellformed.2 extTrue 0 (List.replicate 256 0)
      [1, 3, 0, 2] (by decide)⟩

end WifiI2c
